import Mathlib

/-!
Verification of the scela in-process publish/subscribe message bus
(`pkg/scela`): pattern matcher, subscription registry, middleware chain,
and the bus facade with its retry / dead-letter dispatch path.

Each Go function used by a claim is embedded as an executable Lean
definition mirroring the source (`pkg/scela/pattern.go`,
`pkg/scela/subscription.go`, `pkg/scela/bus.go`).  Go maps are modelled
as association lists (insertion-ordered, which fixes one admissible
iteration order), Go channels as lists used as FIFO queues, handler side
effects as explicit state passing, and Go `error` values as
`Option String` carrying the `fmt.Errorf` text.  The Go standard
library helpers `strings.Contains` and `strings.Split` are embedded as
executable functions over the string's character list, since the
built-in `String` operations do not reduce in the kernel.
-/

namespace Scela

/-! ## String helpers (`strings.Contains`, `strings.Split` on `"."`) -/

/-- Embedding of Go `strings.Split(s, ".")` on the character list:
splits at every `.`, keeping empty segments, and yields `[[]]` for the
empty string, exactly as Go does. -/
def splitDot : List Char → List (List Char)
  | [] => [[]]
  | c :: cs =>
      match splitDot cs with
      | [] => [[c]]
      | seg :: segs => if c = '.' then [] :: seg :: segs else (c :: seg) :: segs

/-- `strings.Split(s, ".")` as a function on `String`. -/
def splitOnDot (s : String) : List String :=
  (splitDot s.data).map (fun cs => String.mk cs)

/-- `strings.Contains(s, "*")` specialised to a single-character needle:
true iff the character occurs in the string. -/
def containsChar (s : String) (c : Char) : Bool :=
  s.data.contains c

/-! ## Pattern matcher (`pattern.go`) -/

/-- Segment-by-segment loop of `patternMatcher.Match`: a `*` pattern
segment is skipped (matches anything), any other segment must be equal.
Only called with lists of equal length. -/
def segmentsMatch : List String → List String → Bool
  | p :: ps, t :: ts =>
      if p = "*" then segmentsMatch ps ts
      else if p = t then segmentsMatch ps ts
      else false
  | _, _ => true

/-- `patternMatcher.Match` from `pattern.go`: all-wildcard check, exact
match check, no-wildcard rejection, then split on `.` and compare
segment lists of equal length. -/
def Match (pattern topic : String) : Bool :=
  if pattern = "*" ∨ pattern = "#" then true
  else if pattern = topic then true
  else if ¬ (containsChar pattern '*') then false
  else
    let patternParts := splitOnDot pattern
    let topicParts := splitOnDot topic
    if patternParts.length ≠ topicParts.length then false
    else segmentsMatch patternParts topicParts

/-- `patternMatcher.MatchMultiple` from `pattern.go`. -/
def MatchMultiple (patterns : List String) (topic : String) : List String :=
  patterns.filter (fun pattern => Match pattern topic)

/-- Segment comparison following the spec sentence word for word: a `*`
pattern segment matches any single NON-EMPTY topic segment, any other
segment requires exact equality.  (The code, by contrast, lets `*`
match the empty segment too.) -/
def specSegMatch (p t : String) : Bool :=
  if p = "*" then t ≠ "" else p = t

/-- Wildcard-branch matching following the spec's words, for comparison
with `Match`: split both strings on `.`, reject on differing segment
counts, else compare via `specSegMatch`. -/
def specMatchWildcard (pattern topic : String) : Bool :=
  let patternParts := splitOnDot pattern
  let topicParts := splitOnDot topic
  if patternParts.length ≠ topicParts.length then false
  else (patternParts.zip topicParts).all fun pt => specSegMatch pt.1 pt.2

theorem segmentsMatch_iff :
    ∀ (ps ts : List String), ps.length = ts.length →
      (segmentsMatch ps ts = true ↔
        ∀ i (hp : i < ps.length) (ht : i < ts.length),
          ps.get ⟨i, hp⟩ = "*" ∨ ps.get ⟨i, hp⟩ = ts.get ⟨i, ht⟩) := by
  intro ps
  induction ps with
  | nil =>
      intro ts h
      simp [segmentsMatch]
  | cons p ps ih =>
      intro ts h
      cases ts with
      | nil => simp at h
      | cons t ts =>
        simp only [List.length_cons, Nat.succ.injEq] at h
        constructor
        · intro hseg i hp ht
          cases i with
          | zero =>
              simp only [List.get]
              by_cases hstar : p = "*"
              · exact Or.inl hstar
              · right
                unfold segmentsMatch at hseg
                rw [if_neg hstar] at hseg
                by_cases heq : p = t
                · exact heq
                · rw [if_neg heq] at hseg; exact absurd hseg (by simp)
          | succ j =>
              have hrec : segmentsMatch ps ts = true := by
                unfold segmentsMatch at hseg
                by_cases hstar : p = "*"
                · rwa [if_pos hstar] at hseg
                · rw [if_neg hstar] at hseg
                  by_cases heq : p = t
                  · rwa [if_pos heq] at hseg
                  · rw [if_neg heq] at hseg; exact absurd hseg (by simp)
              have := (ih ts h).mp hrec j (Nat.lt_of_succ_lt_succ hp)
                (Nat.lt_of_succ_lt_succ ht)
              simpa using this
        · intro hall
          unfold segmentsMatch
          have hhead := hall 0 (Nat.succ_pos _) (Nat.succ_pos _)
          simp only [List.get] at hhead
          have htail : segmentsMatch ps ts = true := by
            refine (ih ts h).mpr ?_
            intro j hp ht
            have := hall (j + 1) (Nat.succ_lt_succ hp) (Nat.succ_lt_succ ht)
            simpa using this
          by_cases hstar : p = "*"
          · rw [if_pos hstar]; exact htail
          · rw [if_neg hstar]
            rcases hhead with h1 | h2
            · exact absurd h1 hstar
            · rw [if_pos h2]; exact htail

/-- C2: the claim as stated is refuted by the code: `Match "user.*"
"user."` returns `true` although the `*` segment faces an empty topic
segment, which the spec's non-empty requirement (`specMatchWildcard`)
rejects. -/
theorem match_star_empty_segment_counterexample :
    containsChar "user.*" '*' = true ∧ "user.*" ≠ "*" ∧ "user.*" ≠ "#" ∧
      Match "user.*" "user." = true ∧
      specMatchWildcard "user.*" "user." = false := by
  refine ⟨by decide, by decide, by decide, by decide, by decide⟩

/-- C2 (amended): for every pattern containing `*` other than the
whole-string patterns `"*"` and `"#"`, `Match` splits both strings on
`.`, rejects on differing segment counts, and otherwise matches iff
every non-`*` pattern segment equals the corresponding topic segment —
a `*` segment matches ANY corresponding topic segment, including the
empty one. -/
theorem match_wildcard_segmentwise (pattern topic : String)
    (h1 : containsChar pattern '*' = true) (h2 : pattern ≠ "*") (h3 : pattern ≠ "#") :
    Match pattern topic = true ↔
      ((splitOnDot pattern).length = (splitOnDot topic).length ∧
        ∀ i (hp : i < (splitOnDot pattern).length)
            (ht : i < (splitOnDot topic).length),
          (splitOnDot pattern).get ⟨i, hp⟩ = "*" ∨
            (splitOnDot pattern).get ⟨i, hp⟩ = (splitOnDot topic).get ⟨i, ht⟩) := by
  unfold Match
  rw [if_neg (by exact fun h => h.elim h2 h3)]
  by_cases heq : pattern = topic
  · rw [if_pos heq]
    subst heq
    constructor
    · intro _
      exact ⟨rfl, fun i hp ht => Or.inr rfl⟩
    · intro _; rfl
  · rw [if_neg heq, if_neg (by simpa using h1)]
    simp only
    by_cases hlen : (splitOnDot pattern).length = (splitOnDot topic).length
    · rw [if_neg (by simpa using hlen)]
      rw [segmentsMatch_iff _ _ hlen]
      constructor
      · intro hall; exact ⟨hlen, hall⟩
      · intro hall; exact hall.2
    · rw [if_pos (by simpa using hlen)]
      constructor
      · intro h; exact absurd h (by simp)
      · intro h; exact absurd h.1 hlen

/-- Witness for C2 (amended) at pattern `"user.*"`, topic `"user.created"`. -/
theorem match_wildcard_segmentwise_witness :
    Match "user.*" "user.created" = true ↔
      ((splitOnDot "user.*").length = (splitOnDot "user.created").length ∧
        ∀ i (hp : i < (splitOnDot "user.*").length)
            (ht : i < (splitOnDot "user.created").length),
          (splitOnDot "user.*").get ⟨i, hp⟩ = "*" ∨
            (splitOnDot "user.*").get ⟨i, hp⟩ =
              (splitOnDot "user.created").get ⟨i, ht⟩) :=
  match_wildcard_segmentwise "user.*" "user.created" (by decide) (by decide) (by decide)

/-- C7: the claim as stated is refuted by the code: `"#"` contains no
`*` and differs from the topic `"x"`, yet `Match "#" "x"` is `true`
(the `"#"` all-wildcard rule fires first). -/
theorem match_no_star_counterexample :
    containsChar "#" '*' = false ∧ "#" ≠ "x" ∧ Match "#" "x" = true := by
  refine ⟨by decide, by decide, by decide⟩

/-- C7 (amended): every pattern with no `*` character, other than the
all-wildcard pattern `"#"`, matches no topic other than itself. -/
theorem match_no_star_requires_equality (P T : String)
    (h1 : containsChar P '*' = false) (h2 : P ≠ "#") (h3 : P ≠ T) :
    Match P T = false := by
  have hstar : P ≠ "*" := by
    intro he; subst he; simp [containsChar] at h1
  unfold Match
  rw [if_neg (by exact fun h => h.elim hstar h2), if_neg h3,
    if_pos (by simp [h1])]

/-- Witness for C7 (amended) at `P = "user.created"`, `T = "user.updated"`. -/
theorem match_no_star_requires_equality_witness :
    Match "user.created" "user.updated" = false :=
  match_no_star_requires_equality "user.created" "user.updated"
    (by decide) (by decide) (by decide)

/-! ## Data model (`interfaces.go`, `message.go`, `bus.go`) -/

/-- Priority levels from `interfaces.go`. -/
inductive Priority where
  | low
  | normal
  | high
  | urgent
deriving DecidableEq, Repr

/-- `message` from `message.go`.  The payload type is a parameter since
Go stores an opaque `interface{}`; `generateID` (random) and
`time.Now()` are modelled by taking the generated id and timestamp as
arguments of `NewMessage`. -/
structure Message (α : Type) where
  id : String
  topic : String
  payload : α
  metadata : List (String × String)
  timestamp : Nat
  priority : Priority
deriving DecidableEq

/-- `NewMessage` from `message.go`: fresh id, empty metadata, current
time, normal priority. -/
def NewMessage (topic : String) (payload : α) (newId : String) (now : Nat) :
    Message α :=
  ⟨newId, topic, payload, [], now, Priority.normal⟩

/-- A handler (`Handler.Handle(ctx, msg) error`): side effects are
modelled by explicit passing of a handler-world state `σ`; the
`context.Context` argument carries no information used by the core and
is omitted.  The returned `Option String` is the Go `error` (`none` =
`nil`). -/
def Handler (σ α : Type) := Message α → σ → σ × Option String

/-- `Middleware` from `interfaces.go`: a handler transform. -/
def Middleware (σ α : Type) := Handler σ α → Handler σ α

/-- `envelope` from `bus.go`. -/
structure Envelope (α : Type) where
  msg : Message α
  retries : Nat
  priority : Priority

/-- `subscription` from `subscription.go`.  The back-reference to the
owning bus is used only to route `Unsubscribe` calls and is modelled by
the bus-level `busUnsubscribe` below. -/
structure Subscription (σ α : Type) where
  id : String
  pattern : String
  handler : Handler σ α

/-! ## Association-list model of Go maps -/

/-- Lookup in a Go map modelled as an association list. -/
def mapLookup (k : String) : List (String × β) → Option β
  | [] => none
  | (k2, v) :: rest => if k2 = k then some v else mapLookup k rest

/-- `m[k] = v` on a Go map: replace the existing entry or append. -/
def mapInsert (k : String) (v : β) : List (String × β) → List (String × β)
  | [] => [(k, v)]
  | (k2, v2) :: rest =>
      if k2 = k then (k, v) :: rest else (k2, v2) :: mapInsert k v rest

/-- `delete(m, k)` on a Go map. -/
def mapDelete (k : String) : List (String × β) → List (String × β)
  | [] => []
  | (k2, v2) :: rest =>
      if k2 = k then mapDelete k rest else (k2, v2) :: mapDelete k rest

theorem mapLookup_insert_self (k : String) (v : β) (m : List (String × β)) :
    mapLookup k (mapInsert k v m) = some v := by
  induction m with
  | nil => simp [mapInsert, mapLookup]
  | cons e rest ih =>
      obtain ⟨k2, v2⟩ := e
      by_cases h : k2 = k
      · simp [mapInsert, h, mapLookup]
      · simp [mapInsert, h, mapLookup, ih]

theorem mapLookup_insert_ne (k k2 : String) (v : β) (m : List (String × β))
    (h : k2 ≠ k) : mapLookup k2 (mapInsert k v m) = mapLookup k2 m := by
  induction m with
  | nil =>
      simp only [mapInsert, mapLookup]
      rw [if_neg (Ne.symm h)]
  | cons e rest ih =>
      obtain ⟨k3, v3⟩ := e
      simp only [mapInsert]
      by_cases h3 : k3 = k
      · rw [if_pos h3]
        simp only [mapLookup]
        rw [if_neg (Ne.symm h), if_neg (by rw [h3]; exact Ne.symm h)]
      · rw [if_neg h3]
        simp only [mapLookup]
        by_cases h4 : k3 = k2
        · rw [if_pos h4, if_pos h4]
        · rw [if_neg h4, if_neg h4]
          exact ih

theorem mapLookup_delete_self (k : String) (m : List (String × β)) :
    mapLookup k (mapDelete k m) = none := by
  induction m with
  | nil => simp [mapDelete, mapLookup]
  | cons e rest ih =>
      obtain ⟨k2, v2⟩ := e
      by_cases h : k2 = k
      · simp [mapDelete, h, ih]
      · simp [mapDelete, h, mapLookup, ih]

theorem mapLookup_delete_ne (k k2 : String) (m : List (String × β))
    (h : k2 ≠ k) : mapLookup k2 (mapDelete k m) = mapLookup k2 m := by
  induction m with
  | nil => rfl
  | cons e rest ih =>
      obtain ⟨k3, v3⟩ := e
      simp only [mapDelete]
      by_cases h3 : k3 = k
      · rw [if_pos h3, ih]
        simp only [mapLookup]
        rw [if_neg (by rw [h3]; exact Ne.symm h)]
      · rw [if_neg h3]
        simp only [mapLookup]
        by_cases h4 : k3 = k2
        · rw [if_pos h4, if_pos h4]
        · rw [if_neg h4, if_neg h4]
          exact ih

/-! ## Subscription registry (`subscription.go`) -/

/-- `subscriptionRegistry`: id→subscription map and pattern→ids map. -/
structure Registry (σ α : Type) where
  subscriptions : List (String × Subscription σ α)
  patterns : List (String × List String)

/-- `newSubscriptionRegistry`. -/
def emptyRegistry : Registry σ α := ⟨[], []⟩

/-- The `fmt.Errorf("subscription not found: %s", id)` message. -/
def notFoundMsg (id : String) : String := "subscription not found: " ++ id

/-- `subscriptionRegistry.Add`: reject empty pattern and nil handler
(`none` models a nil Go handler), then store the subscription under the
freshly generated id (taken as the `newId` argument) and append the id
to the pattern's id list. -/
def registryAdd (r : Registry σ α) (pattern : String)
    (handler : Option (Handler σ α)) (newId : String) :
    Except String (Subscription σ α × Registry σ α) :=
  if pattern = "" then .error "subscription pattern cannot be empty"
  else
    match handler with
    | none => .error "handler cannot be nil"
    | some h =>
        let sub : Subscription σ α := ⟨newId, pattern, h⟩
        .ok (sub,
          { subscriptions := mapInsert newId sub r.subscriptions,
            patterns :=
              mapInsert pattern
                ((mapLookup pattern r.patterns).getD [] ++ [newId])
                r.patterns })

/-- The in-place removal loop of `subscriptionRegistry.Remove`: drop
the first occurrence of `x` (the loop breaks after the first hit). -/
def removeFirst (x : String) : List String → List String
  | [] => []
  | y :: ys => if y = x then ys else y :: removeFirst x ys

/-- `subscriptionRegistry.Remove`: `NotFound` for an unknown id (state
unchanged), otherwise delete the id from the subscription map, drop it
from its pattern's id list, and delete the pattern entry if that list
became empty. -/
def registryRemove (r : Registry σ α) (id : String) :
    Registry σ α × Option String :=
  match mapLookup id r.subscriptions with
  | none => (r, some (notFoundMsg id))
  | some sub =>
      let subs1 := mapDelete id r.subscriptions
      let ids := (mapLookup sub.pattern r.patterns).getD []
      let pats1 := mapInsert sub.pattern (removeFirst id ids) r.patterns
      let pats2 :=
        if (mapLookup sub.pattern pats1).getD [] = [] then
          mapDelete sub.pattern pats1
        else pats1
      ({ subscriptions := subs1, patterns := pats2 }, none)

/-- `subscriptionRegistry.Clear`. -/
def registryClear (_ : Registry σ α) : Registry σ α := ⟨[], []⟩

/-- `subscriptionRegistry.Count`. -/
def registryCount (r : Registry σ α) : Nat := r.subscriptions.length

/-- Inner loop of `GetHandlers` over one matching pattern's id list:
skip ids already seen, look each id up, append `(id, handler)` and mark
the id as seen.  Returns the updated seen set and the collected pairs. -/
def collectIds (subs : List (String × Subscription σ α)) :
    List String → List String → List String × List (String × Handler σ α)
  | [], seen => (seen, [])
  | id :: ids, seen =>
      if id ∈ seen then collectIds subs ids seen
      else
        match mapLookup id subs with
        | some sub =>
            let rest := collectIds subs ids (id :: seen)
            (rest.1, (id, sub.handler) :: rest.2)
        | none => collectIds subs ids seen

/-- Outer loop of `GetHandlers` over the pattern map (association-list
iteration order stands in for Go's indeterminate map order). -/
def getHandlersAux (subs : List (String × Subscription σ α)) (topic : String) :
    List (String × List String) → List String → List (String × Handler σ α)
  | [], _ => []
  | (pattern, ids) :: rest, seen =>
      if Match pattern topic then
        let collected := collectIds subs ids seen
        collected.2 ++ getHandlersAux subs topic rest collected.1
      else getHandlersAux subs topic rest seen

/-- `GetHandlers` instrumented with the subscription ids (the keys the
Go code records in its `seen` set as it appends each handler). -/
def getHandlersPairs (r : Registry σ α) (topic : String) :
    List (String × Handler σ α) :=
  getHandlersAux r.subscriptions topic r.patterns []

/-- `subscriptionRegistry.GetHandlers`: the handlers of all matching,
deduplicated subscriptions. -/
def GetHandlers (r : Registry σ α) (topic : String) : List (Handler σ α) :=
  (getHandlersPairs r topic).map Prod.snd

/-! ## Middleware chain (`bus.go` `wrapWithMiddleware`) -/

/-- `bus.wrapWithMiddleware`: apply middleware in reverse registration
order (index `len-1` down to `0`), so that the first-registered
middleware ends up outermost. -/
def wrapWithMiddleware (middleware : List (Middleware σ α))
    (handler : Handler σ α) : Handler σ α :=
  middleware.reverse.foldl (fun h m => m h) handler

/-- C3: for final handler `H` and middleware `[m1, ..., mn]` in
registration order, the wrapped handler is the classic nesting
`m1 (m2 (... (mn H)))`, i.e. a right fold of application over the
registration-ordered list, making `m1` the outermost wrapper. -/
theorem wrap_with_middleware_nests (middleware : List (Middleware σ α))
    (H : Handler σ α) :
    wrapWithMiddleware middleware H =
      middleware.foldr (fun m h => m h) H := by
  unfold wrapWithMiddleware
  rw [List.foldl_reverse]

/-! ## Registry invariant (`Add` / `Remove` / `Clear`) -/

/-- The registry invariant as the spec states it: an id appears in some
pattern's id list iff it has an entry in the id→subscription map, and
no pattern entry holds an empty id list. -/
def RegistryInv (r : Registry σ α) : Prop :=
  (∀ id : String,
      (∃ p l, mapLookup p r.patterns = some l ∧ id ∈ l) ↔
        (mapLookup id r.subscriptions).isSome = true) ∧
  (∀ p l, mapLookup p r.patterns = some l → l ≠ [])

/-- The inductive strengthening of `RegistryInv` that the code
maintains: the cross-references carry the owning pattern, and id lists
are duplicate-free and non-empty. -/
structure RegistryWF (r : Registry σ α) : Prop where
  subToPat : ∀ id sub, mapLookup id r.subscriptions = some sub →
    ∃ l, mapLookup sub.pattern r.patterns = some l ∧ id ∈ l
  patToSub : ∀ p l, mapLookup p r.patterns = some l →
    ∀ id ∈ l, ∃ sub, mapLookup id r.subscriptions = some sub ∧ sub.pattern = p
  patNonempty : ∀ p l, mapLookup p r.patterns = some l → l ≠ []
  patNodup : ∀ p l, mapLookup p r.patterns = some l → l.Nodup

theorem removeFirst_subset (x : String) :
    ∀ (l : List String) (y : String), y ∈ removeFirst x l → y ∈ l := by
  intro l
  induction l with
  | nil => intro y h; simp [removeFirst] at h
  | cons z zs ih =>
      intro y h
      by_cases hz : z = x
      · rw [removeFirst, if_pos hz] at h
        exact List.mem_cons_of_mem _ h
      · rw [removeFirst, if_neg hz] at h
        rcases List.mem_cons.mp h with h1 | h2
        · exact h1 ▸ List.mem_cons_self _ _
        · exact List.mem_cons_of_mem _ (ih y h2)

theorem mem_removeFirst (x y : String) (hne : y ≠ x) :
    ∀ l : List String, y ∈ l → y ∈ removeFirst x l := by
  intro l
  induction l with
  | nil => intro h; simp at h
  | cons z zs ih =>
      intro h
      by_cases hz : z = x
      · rw [removeFirst, if_pos hz]
        rcases List.mem_cons.mp h with h1 | h2
        · exact absurd (h1.trans hz) hne
        · exact h2
      · rw [removeFirst, if_neg hz]
        rcases List.mem_cons.mp h with h1 | h2
        · exact h1 ▸ List.mem_cons_self _ _
        · exact List.mem_cons_of_mem _ (ih h2)

theorem not_mem_removeFirst (x : String) :
    ∀ l : List String, l.Nodup → x ∉ removeFirst x l := by
  intro l
  induction l with
  | nil => intro _ h; simp [removeFirst] at h
  | cons z zs ih =>
      intro hnd h
      obtain ⟨hz1, hz2⟩ := List.nodup_cons.mp hnd
      by_cases hz : z = x
      · rw [removeFirst, if_pos hz] at h
        exact hz1 (hz ▸ h)
      · rw [removeFirst, if_neg hz] at h
        rcases List.mem_cons.mp h with h1 | h2
        · exact hz (h1.symm)
        · exact ih hz2 h2

theorem nodup_removeFirst (x : String) :
    ∀ l : List String, l.Nodup → (removeFirst x l).Nodup := by
  intro l
  induction l with
  | nil => intro _; simp [removeFirst]
  | cons z zs ih =>
      intro hnd
      obtain ⟨hz1, hz2⟩ := List.nodup_cons.mp hnd
      by_cases hz : z = x
      · rw [removeFirst, if_pos hz]
        exact hz2
      · rw [removeFirst, if_neg hz]
        refine List.nodup_cons.mpr ⟨fun hmem => hz1 (removeFirst_subset x zs z hmem), ih hz2⟩

theorem wf_empty : RegistryWF (emptyRegistry : Registry σ α) := by
  constructor <;> intro id sub h <;> exact absurd h (by simp [emptyRegistry, mapLookup])

theorem wf_clear (r : Registry σ α) : RegistryWF (registryClear r) := by
  constructor <;> intro id sub h <;> exact absurd h (by simp [registryClear, mapLookup])

theorem wf_add (r : Registry σ α) (pattern : String)
    (handler : Option (Handler σ α)) (newId : String)
    (sub : Subscription σ α) (r2 : Registry σ α) (hwf : RegistryWF r)
    (hfresh : mapLookup newId r.subscriptions = none)
    (hok : registryAdd r pattern handler newId = .ok (sub, r2)) :
    RegistryWF r2 := by
  by_cases hp : pattern = ""
  · unfold registryAdd at hok
    rw [if_pos hp] at hok
    exact absurd hok (by simp)
  · cases handler with
    | none =>
        unfold registryAdd at hok
        rw [if_neg hp] at hok
        exact absurd hok (by simp)
    | some hh =>
        unfold registryAdd at hok
        rw [if_neg hp] at hok
        simp only [Except.ok.injEq, Prod.mk.injEq] at hok
        obtain ⟨hsub, hr2⟩ := hok
        subst hsub
        subst hr2
        set oldIds := (mapLookup pattern r.patterns).getD [] with hOldIds
        have hOldSome : ∀ id2, id2 ∈ oldIds →
            mapLookup pattern r.patterns = some oldIds := by
          intro id2 hmem
          cases hq : mapLookup pattern r.patterns with
          | none => rw [hOldIds, hq] at hmem; simp at hmem
          | some l => rw [hOldIds, hq]; rfl
        have hnotin : newId ∉ oldIds := by
          intro hmem
          obtain ⟨sub2, hs2, _⟩ :=
            hwf.patToSub pattern oldIds (hOldSome newId hmem) newId hmem
          rw [hfresh] at hs2
          cases hs2
        constructor
        · -- subToPat
          intro id2 sub2 hs2
          by_cases hid : id2 = newId
          · rw [hid, mapLookup_insert_self] at hs2
            injection hs2 with hs2
            subst hs2
            refine ⟨oldIds ++ [newId], ?_, ?_⟩
            · exact mapLookup_insert_self _ _ _
            · rw [hid]; simp
          · rw [mapLookup_insert_ne _ _ _ _ hid] at hs2
            obtain ⟨l, hl, hm⟩ := hwf.subToPat id2 sub2 hs2
            by_cases hq : sub2.pattern = pattern
            · rw [hq] at hl
              have hOld : oldIds = l := by rw [hOldIds, hl]; rfl
              refine ⟨oldIds ++ [newId], ?_, ?_⟩
              · rw [hq]; exact mapLookup_insert_self _ _ _
              · rw [hOld]; exact List.mem_append_left _ hm
            · exact ⟨l, by rw [mapLookup_insert_ne _ _ _ _ hq]; exact hl, hm⟩
        · -- patToSub
          intro q l hq id2 hm
          by_cases hqp : q = pattern
          · rw [hqp, mapLookup_insert_self] at hq
            injection hq with hq
            subst hq
            rcases List.mem_append.mp hm with h1 | h2
            · obtain ⟨sub2, hs2, hpat2⟩ :=
                hwf.patToSub pattern oldIds (hOldSome id2 h1) id2 h1
              have hid : id2 ≠ newId := by
                intro he; rw [he, hfresh] at hs2; cases hs2
              refine ⟨sub2, by rw [mapLookup_insert_ne _ _ _ _ hid]; exact hs2, ?_⟩
              rw [hqp]; exact hpat2
            · have hid : id2 = newId := by simpa using h2
              refine ⟨⟨newId, pattern, hh⟩, ?_, ?_⟩
              · rw [hid]; exact mapLookup_insert_self _ _ _
              · rw [hqp]
          · rw [mapLookup_insert_ne _ _ _ _ hqp] at hq
            obtain ⟨sub2, hs2, hpat2⟩ := hwf.patToSub q l hq id2 hm
            have hid : id2 ≠ newId := by
              intro he; rw [he, hfresh] at hs2; cases hs2
            exact ⟨sub2, by rw [mapLookup_insert_ne _ _ _ _ hid]; exact hs2, hpat2⟩
        · -- patNonempty
          intro q l hq
          by_cases hqp : q = pattern
          · rw [hqp, mapLookup_insert_self] at hq
            injection hq with hq
            subst hq
            simp
          · rw [mapLookup_insert_ne _ _ _ _ hqp] at hq
            exact hwf.patNonempty q l hq
        · -- patNodup
          intro q l hq
          by_cases hqp : q = pattern
          · rw [hqp, mapLookup_insert_self] at hq
            injection hq with hq
            subst hq
            have hOldNodup : oldIds.Nodup := by
              cases hq2 : mapLookup pattern r.patterns with
              | none => rw [hOldIds, hq2]; simp
              | some l2 =>
                  have : oldIds = l2 := by rw [hOldIds, hq2]; rfl
                  rw [this]
                  exact hwf.patNodup pattern l2 hq2
            rw [List.nodup_append]
            refine ⟨hOldNodup, List.nodup_singleton _, ?_⟩
            intro a ha hb
            rw [List.mem_singleton.mp hb] at ha
            exact hnotin ha
          · rw [mapLookup_insert_ne _ _ _ _ hqp] at hq
            exact hwf.patNodup q l hq

theorem registryRemove_notfound (r : Registry σ α) (id : String)
    (hl : mapLookup id r.subscriptions = none) :
    registryRemove r id = (r, some (notFoundMsg id)) := by
  unfold registryRemove
  rw [hl]

theorem registryRemove_found (r : Registry σ α) (id : String)
    (sub : Subscription σ α) (hl : mapLookup id r.subscriptions = some sub) :
    registryRemove r id =
      ({ subscriptions := mapDelete id r.subscriptions,
         patterns :=
           if removeFirst id ((mapLookup sub.pattern r.patterns).getD []) = [] then
             mapDelete sub.pattern
               (mapInsert sub.pattern
                 (removeFirst id ((mapLookup sub.pattern r.patterns).getD []))
                 r.patterns)
           else
             mapInsert sub.pattern
               (removeFirst id ((mapLookup sub.pattern r.patterns).getD []))
               r.patterns }, none) := by
  unfold registryRemove
  rw [hl]
  simp only [mapLookup_insert_self, Option.getD_some]

theorem wf_remove (r : Registry σ α) (id : String) (hwf : RegistryWF r) :
    RegistryWF (registryRemove r id).1 := by
  cases hl : mapLookup id r.subscriptions with
  | none =>
      rw [registryRemove_notfound r id hl]
      exact hwf
  | some sub =>
      rw [registryRemove_found r id sub hl]
      obtain ⟨ids0, hP, hidmem⟩ := hwf.subToPat id sub hl
      have hids : (mapLookup sub.pattern r.patterns).getD [] = ids0 := by
        rw [hP]; rfl
      rw [hids]
      have hnodup0 : ids0.Nodup := hwf.patNodup _ _ hP
      have hidnot2 : id ∉ removeFirst id ids0 := not_mem_removeFirst id ids0 hnodup0
      by_cases hempty : removeFirst id ids0 = []
      · rw [if_pos hempty]
        constructor
        · -- subToPat
          intro id2 sub2 hs2
          have hid2 : id2 ≠ id := by
            intro he; rw [he, mapLookup_delete_self] at hs2; cases hs2
          rw [mapLookup_delete_ne _ _ _ hid2] at hs2
          obtain ⟨l2, hl2, hm2⟩ := hwf.subToPat id2 sub2 hs2
          by_cases hq : sub2.pattern = sub.pattern
          · exfalso
            rw [hq, hP] at hl2
            injection hl2 with hl2
            subst hl2
            have : id2 ∈ removeFirst id ids0 := mem_removeFirst id id2 hid2 ids0 hm2
            rw [hempty] at this
            simp at this
          · refine ⟨l2, ?_, hm2⟩
            rw [mapLookup_delete_ne _ _ _ hq, mapLookup_insert_ne _ _ _ _ hq]
            exact hl2
        · -- patToSub
          intro q l hq id2 hm
          by_cases hqp : q = sub.pattern
          · rw [hqp, mapLookup_delete_self] at hq
            cases hq
          · rw [mapLookup_delete_ne _ _ _ hqp, mapLookup_insert_ne _ _ _ _ hqp] at hq
            obtain ⟨sub2, hs2, hpat2⟩ := hwf.patToSub q l hq id2 hm
            have hid2 : id2 ≠ id := by
              intro he
              rw [he, hl] at hs2
              injection hs2 with hs2
              rw [← hs2] at hpat2
              exact hqp hpat2.symm
            exact ⟨sub2, by rw [mapLookup_delete_ne _ _ _ hid2]; exact hs2, hpat2⟩
        · -- patNonempty
          intro q l hq
          by_cases hqp : q = sub.pattern
          · rw [hqp, mapLookup_delete_self] at hq
            cases hq
          · rw [mapLookup_delete_ne _ _ _ hqp, mapLookup_insert_ne _ _ _ _ hqp] at hq
            exact hwf.patNonempty q l hq
        · -- patNodup
          intro q l hq
          by_cases hqp : q = sub.pattern
          · rw [hqp, mapLookup_delete_self] at hq
            cases hq
          · rw [mapLookup_delete_ne _ _ _ hqp, mapLookup_insert_ne _ _ _ _ hqp] at hq
            exact hwf.patNodup q l hq
      · rw [if_neg hempty]
        constructor
        · -- subToPat
          intro id2 sub2 hs2
          have hid2 : id2 ≠ id := by
            intro he; rw [he, mapLookup_delete_self] at hs2; cases hs2
          rw [mapLookup_delete_ne _ _ _ hid2] at hs2
          obtain ⟨l2, hl2, hm2⟩ := hwf.subToPat id2 sub2 hs2
          by_cases hq : sub2.pattern = sub.pattern
          · rw [hq, hP] at hl2
            injection hl2 with hl2
            subst hl2
            refine ⟨removeFirst id ids0, ?_, mem_removeFirst id id2 hid2 ids0 hm2⟩
            rw [hq]
            exact mapLookup_insert_self _ _ _
          · refine ⟨l2, ?_, hm2⟩
            rw [mapLookup_insert_ne _ _ _ _ hq]
            exact hl2
        · -- patToSub
          intro q l hq id2 hm
          by_cases hqp : q = sub.pattern
          · rw [hqp, mapLookup_insert_self] at hq
            injection hq with hq
            subst hq
            have hmem0 : id2 ∈ ids0 := removeFirst_subset id ids0 id2 hm
            have hid2 : id2 ≠ id := by
              intro he; rw [he] at hm; exact hidnot2 hm
            obtain ⟨sub2, hs2, hpat2⟩ := hwf.patToSub sub.pattern ids0 hP id2 hmem0
            refine ⟨sub2, by rw [mapLookup_delete_ne _ _ _ hid2]; exact hs2, ?_⟩
            rw [hqp]
            exact hpat2
          · rw [mapLookup_insert_ne _ _ _ _ hqp] at hq
            obtain ⟨sub2, hs2, hpat2⟩ := hwf.patToSub q l hq id2 hm
            have hid2 : id2 ≠ id := by
              intro he
              rw [he, hl] at hs2
              injection hs2 with hs2
              rw [← hs2] at hpat2
              exact hqp hpat2.symm
            exact ⟨sub2, by rw [mapLookup_delete_ne _ _ _ hid2]; exact hs2, hpat2⟩
        · -- patNonempty
          intro q l hq
          by_cases hqp : q = sub.pattern
          · rw [hqp, mapLookup_insert_self] at hq
            injection hq with hq
            subst hq
            exact hempty
          · rw [mapLookup_insert_ne _ _ _ _ hqp] at hq
            exact hwf.patNonempty q l hq
        · -- patNodup
          intro q l hq
          by_cases hqp : q = sub.pattern
          · rw [hqp, mapLookup_insert_self] at hq
            injection hq with hq
            subst hq
            exact nodup_removeFirst id ids0 hnodup0
          · rw [mapLookup_insert_ne _ _ _ _ hqp] at hq
            exact hwf.patNodup q l hq

/-- Registry states reachable from the fresh registry through `Add`
(with a fresh generated id, modelling `generateID`'s uniqueness),
`Remove`, and `Clear`. -/
inductive RegistryReachable : Registry σ α → Prop where
  | empty : RegistryReachable emptyRegistry
  | add : ∀ (r : Registry σ α) (pattern : String)
      (handler : Option (Handler σ α)) (newId : String)
      (sub : Subscription σ α) (r2 : Registry σ α),
      RegistryReachable r →
      mapLookup newId r.subscriptions = none →
      registryAdd r pattern handler newId = .ok (sub, r2) →
      RegistryReachable r2
  | remove : ∀ (r : Registry σ α) (id : String),
      RegistryReachable r → RegistryReachable (registryRemove r id).1
  | clear : ∀ r : Registry σ α,
      RegistryReachable r → RegistryReachable (registryClear r)

theorem wf_of_reachable (r : Registry σ α) (h : RegistryReachable r) :
    RegistryWF r := by
  induction h with
  | empty => exact wf_empty
  | add r pattern handler newId sub r2 _ hfresh hok ih =>
      exact wf_add r pattern handler newId sub r2 ih hfresh hok
  | remove r id _ ih => exact wf_remove r id ih
  | clear r _ _ => exact wf_clear r

theorem inv_of_wf (r : Registry σ α) (h : RegistryWF r) : RegistryInv r := by
  constructor
  · intro id
    constructor
    · rintro ⟨p, l, hpl, hid⟩
      obtain ⟨sub, hs, _⟩ := h.patToSub p l hpl id hid
      rw [hs]
      rfl
    · intro hsome
      cases hs : mapLookup id r.subscriptions with
      | none => rw [hs] at hsome; simp at hsome
      | some sub =>
          obtain ⟨l, hl, hm⟩ := h.subToPat id sub hs
          exact ⟨sub.pattern, l, hl, hm⟩
  · exact h.patNonempty

/-- C4: every registry state reachable through `Add`, `Remove`, and
`Clear` satisfies the registry invariant: an id appears in some
pattern's id list iff it has an entry in the id→subscription map, and
no pattern key maps to an empty id list. -/
theorem registry_ops_preserve_invariant (r : Registry σ α)
    (h : RegistryReachable r) : RegistryInv r :=
  inv_of_wf r (wf_of_reachable r h)

/-- A trivial handler over trivial state, used for concrete witnesses. -/
def unitHandler : Handler Unit Unit := fun _ s => (s, none)

/-- The registry obtained by adding one subscription with id `s1`,
pattern `x`, to the fresh registry. -/
def oneSubRegistry : Registry Unit Unit :=
  ⟨[("s1", ⟨"s1", "x", unitHandler⟩)], [("x", ["s1"])]⟩

/-- Witness for C4: the invariant holds at the concrete reachable state
`oneSubRegistry`. -/
theorem registry_ops_preserve_invariant_witness : RegistryInv oneSubRegistry :=
  registry_ops_preserve_invariant oneSubRegistry
    (RegistryReachable.add emptyRegistry "x" (some unitHandler) "s1"
      ⟨"s1", "x", unitHandler⟩ oneSubRegistry RegistryReachable.empty rfl rfl)

theorem collectIds_mem_isSome (subs : List (String × Subscription σ α)) :
    ∀ (ids seen : List String) (p : String × Handler σ α),
      p ∈ (collectIds subs ids seen).2 → (mapLookup p.1 subs).isSome = true := by
  intro ids
  induction ids with
  | nil => intro seen p h; simp [collectIds] at h
  | cons id2 ids ih =>
      intro seen p h
      by_cases hs : id2 ∈ seen
      · simp only [collectIds, if_pos hs] at h
        exact ih seen p h
      · simp only [collectIds, if_neg hs] at h
        cases hl : mapLookup id2 subs with
        | some sub =>
            rw [hl] at h
            simp only at h
            rcases List.mem_cons.mp h with h1 | h2
            · rw [h1]
              simp [hl]
            · exact ih _ p h2
        | none =>
            rw [hl] at h
            exact ih seen p h

theorem getHandlersAux_mem_isSome (subs : List (String × Subscription σ α))
    (topic : String) :
    ∀ (pats : List (String × List String)) (seen : List String)
      (p : String × Handler σ α),
      p ∈ getHandlersAux subs topic pats seen →
        (mapLookup p.1 subs).isSome = true := by
  intro pats
  induction pats with
  | nil => intro seen p h; simp [getHandlersAux] at h
  | cons e rest ih =>
      obtain ⟨pattern, ids⟩ := e
      intro seen p h
      by_cases hm : Match pattern topic = true
      · simp only [getHandlersAux, if_pos hm] at h
        rcases List.mem_append.mp h with h1 | h2
        · exact collectIds_mem_isSome subs ids seen p h1
        · exact ih _ p h2
      · simp only [getHandlersAux, if_neg hm] at h
        exact ih seen p h

/-- C8: `Remove` of an unknown id fails with `NotFound` and leaves the
registry unchanged; after a successful `Remove`, a second `Remove` of
the same id fails with `NotFound`, and the id (hence its handler) never
appears in `GetHandlers` results for any topic again. -/
theorem remove_notfound_and_handler_gone (r : Registry σ α) (id : String) :
    (mapLookup id r.subscriptions = none →
      registryRemove r id = (r, some (notFoundMsg id))) ∧
    (∀ r2 : Registry σ α, registryRemove r id = (r2, none) →
      registryRemove r2 id = (r2, some (notFoundMsg id)) ∧
      ∀ topic, id ∉ (getHandlersPairs r2 topic).map Prod.fst) := by
  constructor
  · intro hl
    exact registryRemove_notfound r id hl
  · intro r2 hrm
    cases hl : mapLookup id r.subscriptions with
    | none =>
        rw [registryRemove_notfound r id hl] at hrm
        exact absurd (congrArg Prod.snd hrm) (by simp)
    | some sub =>
        rw [registryRemove_found r id sub hl] at hrm
        have hr2 : r2.subscriptions = mapDelete id r.subscriptions := by
          have := congrArg (fun p => Registry.subscriptions p.1) hrm
          simpa using this.symm
        have hnone : mapLookup id r2.subscriptions = none := by
          rw [hr2]
          exact mapLookup_delete_self _ _
        refine ⟨registryRemove_notfound r2 id hnone, ?_⟩
        intro topic hmem
        rw [List.mem_map] at hmem
        obtain ⟨p, hp, hfst⟩ := hmem
        have hsome := getHandlersAux_mem_isSome r2.subscriptions topic
          r2.patterns [] p hp
        rw [hfst, hnone] at hsome
        simp at hsome

/-- Witness for C8: `Remove` of the unknown id `s2` on the fresh
registry reports `NotFound`; a second `Remove` of `s1` after its
successful removal from `oneSubRegistry` reports `NotFound`, and `s1`
no longer contributes a handler for topic `x`. -/
theorem remove_notfound_and_handler_gone_witness :
    registryRemove (emptyRegistry : Registry Unit Unit) "s2" =
        (emptyRegistry, some (notFoundMsg "s2")) ∧
      registryRemove (emptyRegistry : Registry Unit Unit) "s1" =
        (emptyRegistry, some (notFoundMsg "s1")) ∧
      "s1" ∉ (getHandlersPairs (emptyRegistry : Registry Unit Unit) "x").map
        Prod.fst :=
  ⟨(remove_notfound_and_handler_gone (emptyRegistry : Registry Unit Unit)
      "s2").1 rfl,
   ((remove_notfound_and_handler_gone oneSubRegistry "s1").2
      emptyRegistry rfl).1,
   ((remove_notfound_and_handler_gone oneSubRegistry "s1").2
      emptyRegistry rfl).2 "x"⟩

/-! ## Bus facade and dispatcher (`bus.go`)

The worker pool and the locks serialize access to the bus state; the
model applies operations sequentially to an explicit state.  The
bounded queue channel is a list used FIFO (the enqueue-versus-
cancellation select of `Publish` always finds queue space in the
unbounded list model; no claim concerns a full queue).  `generateID`
and `time.Now()` are modelled by the `newId`/`now` arguments. -/

/-- The `bus` struct: registry, middleware list, queue channel, closed
flag, retry bound, optional dead-letter handler. -/
structure BusState (σ α : Type) where
  registry : Registry σ α
  middleware : List (Middleware σ α)
  queue : List (Envelope α)
  closed : Bool
  maxRetries : Nat
  dlqHandler : Option (Handler σ α)

/-- Body of the aggregate-handler loop in `processMessage` and
`PublishSync`: run one handler, keep its error if non-nil, else keep
the previous last error. -/
def aggStep (msg : Message α) (acc : σ × Option String) (h : Handler σ α) :
    σ × Option String :=
  ((h msg acc.1).1, if (h msg acc.1).2.isSome then (h msg acc.1).2 else acc.2)

/-- The aggregate handler built in `processMessage`/`PublishSync`:
invoke every matched handler in order, retaining the last non-nil
error (no short-circuit). -/
def aggregateHandlers (handlers : List (Handler σ α)) : Handler σ α :=
  fun msg s => handlers.foldl (aggStep msg) (s, none)

/-- The envelope mutation performed by `handleError` (`env.retries++`). -/
def retryStep (env : Envelope α) : Envelope α :=
  ⟨env.msg, env.retries + 1, env.priority⟩

/-- `bus.handleError`: bump the retry counter; if still below
`maxRetries` re-enqueue the envelope, else hand the message to the
dead-letter handler (its own error is discarded) or drop it. -/
def handleError (b : BusState σ α) (env : Envelope α) (s : σ) :
    BusState σ α × σ :=
  if (retryStep env).retries < b.maxRetries then
    ({ b with queue := b.queue ++ [retryStep env] }, s)
  else
    match b.dlqHandler with
    | some h => (b, (h (retryStep env).msg s).1)
    | none => (b, s)

/-- `bus.processMessage`: resolve handlers for the envelope's topic;
none → drop silently; otherwise run the middleware-wrapped aggregate
and route a failure into `handleError`. -/
def processMessage (b : BusState σ α) (env : Envelope α) (s : σ) :
    BusState σ α × σ :=
  if (GetHandlers b.registry env.msg.topic).isEmpty then (b, s)
  else
    match
      wrapWithMiddleware b.middleware
        (aggregateHandlers (GetHandlers b.registry env.msg.topic)) env.msg s
    with
    | (s2, none) => (b, s2)
    | (s2, some _) => handleError b env s2

/-- The worker receive loop (`bus.worker`), run by a single worker to
exhaustion of the given fuel: dequeue the head envelope and process it
(possibly re-enqueueing it at the back). -/
def drainLoop : Nat → BusState σ α → σ → BusState σ α × σ
  | 0, b, s => (b, s)
  | fuel + 1, b, s =>
      match b.queue with
      | [] => (b, s)
      | env :: rest =>
          drainLoop fuel (processMessage { b with queue := rest } env s).1
            (processMessage { b with queue := rest } env s).2

/-- `bus.Publish`: closed-bus guard, then build a normal-priority
envelope and enqueue it. -/
def busPublish (b : BusState σ α) (topic : String) (payload : α)
    (newId : String) (now : Nat) : BusState σ α × Option String :=
  if b.closed then (b, some "bus is closed")
  else
    ({ b with queue :=
        b.queue ++ [⟨NewMessage topic payload newId now, 0, Priority.normal⟩] },
      none)

/-- `bus.PublishSync`: closed-bus guard, resolve handlers immediately,
return nil when none match, else invoke the middleware-wrapped
aggregate on the calling thread and return its error. -/
def busPublishSync (b : BusState σ α) (topic : String) (payload : α)
    (newId : String) (now : Nat) (s : σ) : BusState σ α × σ × Option String :=
  if b.closed then (b, s, some "bus is closed")
  else
    if (GetHandlers b.registry topic).isEmpty then (b, s, none)
    else
      match
        wrapWithMiddleware b.middleware
          (aggregateHandlers (GetHandlers b.registry topic))
          (NewMessage topic payload newId now) s
      with
      | (s2, err) => (b, s2, err)

/-- `bus.PublishWithPriority`: as `Publish`, but checks the caller's
cancellation signal (`ctx.Err()`, modelled by `ctxDone`) before
enqueueing, and carries the given priority. -/
def busPublishWithPriority (b : BusState σ α) (ctxDone : Bool) (topic : String)
    (payload : α) (priority : Priority) (newId : String) (now : Nat) :
    BusState σ α × Option String :=
  if b.closed then (b, some "bus is closed")
  else if ctxDone then (b, some "context canceled")
  else
    ({ b with queue :=
        b.queue ++ [⟨NewMessage topic payload newId now, 0, priority⟩] },
      none)

/-- `bus.Subscribe`: closed-bus guard, then delegate to the registry. -/
def busSubscribe (b : BusState σ α) (pattern : String)
    (handler : Option (Handler σ α)) (newId : String) :
    Option (Subscription σ α) × BusState σ α × Option String :=
  if b.closed then (none, b, some "bus is closed")
  else
    match registryAdd b.registry pattern handler newId with
    | .error e => (none, b, some e)
    | .ok (sub, r2) => (some sub, { b with registry := r2 }, none)

/-- `bus.unsubscribe` (reached via `Subscription.Unsubscribe`):
delegates to the registry without consulting the closed flag. -/
def busUnsubscribe (b : BusState σ α) (id : String) :
    BusState σ α × Option String :=
  ({ b with registry := (registryRemove b.registry id).1 },
    (registryRemove b.registry id).2)

/-- `bus.Use`: append to the middleware list. -/
def busUse (b : BusState σ α) (mws : List (Middleware σ α)) : BusState σ α :=
  { b with middleware := b.middleware ++ mws }

/-- `bus.Close`: `AlreadyClosed` on a second call; otherwise flip the
closed flag, close the queue (workers drain the backlog and exit —
their handler effects during the drain are not modelled, no claim
depends on them), and clear the registry. -/
def busClose (b : BusState σ α) : BusState σ α × Option String :=
  if b.closed then (b, some "bus already closed")
  else
    ({ b with closed := true, queue := [], registry := registryClear b.registry },
      none)

/-- C5: after the first `Close` returns (successfully, flag now set),
every `Publish`, `PublishSync`, `PublishWithPriority`, and `Subscribe`
on a closed bus returns the `BusClosed` error with the state unchanged
(no enqueue, no registry change), a further `Close` returns the
`AlreadyClosed` error, and the remaining operations (`Use`,
`unsubscribe`) never unset the closed flag. -/
theorem closed_bus_guard (b : BusState σ α) (hopen : b.closed = false) :
    (busClose b).2 = none ∧ (busClose b).1.closed = true ∧
    (∀ b2 : BusState σ α, b2.closed = true →
      (∀ (topic : String) (payload : α) (newId : String) (now : Nat),
        busPublish b2 topic payload newId now = (b2, some "bus is closed")) ∧
      (∀ (topic : String) (payload : α) (newId : String) (now : Nat) (s : σ),
        busPublishSync b2 topic payload newId now s =
          (b2, s, some "bus is closed")) ∧
      (∀ (ctxDone : Bool) (topic : String) (payload : α) (priority : Priority)
          (newId : String) (now : Nat),
        busPublishWithPriority b2 ctxDone topic payload priority newId now =
          (b2, some "bus is closed")) ∧
      (∀ (pattern : String) (handler : Option (Handler σ α)) (newId : String),
        busSubscribe b2 pattern handler newId =
          (none, b2, some "bus is closed")) ∧
      busClose b2 = (b2, some "bus already closed") ∧
      (∀ mws, (busUse b2 mws).closed = true) ∧
      (∀ id, (busUnsubscribe b2 id).1.closed = true)) := by
  refine ⟨?_, ?_, ?_⟩
  · simp [busClose, hopen]
  · simp [busClose, hopen]
  · intro b2 hclosed
    refine ⟨?_, ?_, ?_, ?_, ?_, ?_, ?_⟩
    · intro topic payload newId now
      simp [busPublish, hclosed]
    · intro topic payload newId now s
      simp [busPublishSync, hclosed]
    · intro ctxDone topic payload priority newId now
      simp [busPublishWithPriority, hclosed]
    · intro pattern handler newId
      simp [busSubscribe, hclosed]
    · simp [busClose, hclosed]
    · intro mws
      simp [busUse, hclosed]
    · intro id
      simp [busUnsubscribe, hclosed]

/-- A concrete open bus over trivial handler state. -/
def unitBus : BusState Unit Unit := ⟨emptyRegistry, [], [], false, 3, none⟩

/-- Witness for C5 at the concrete open bus `unitBus`: the first close
succeeds, the flag is set, and a publish after close is refused. -/
theorem closed_bus_guard_witness :
    (busClose unitBus).2 = none ∧ (busClose unitBus).1.closed = true ∧
      busPublish (busClose unitBus).1 "t" () "m1" 0 =
        ((busClose unitBus).1, some "bus is closed") :=
  ⟨(closed_bus_guard unitBus rfl).1, (closed_bus_guard unitBus rfl).2.1,
    ((closed_bus_guard unitBus rfl).2.2 (busClose unitBus).1 rfl).1 "t" () "m1" 0⟩

/-- C10: after a successful `Close`, `Unsubscribe` on any previously
obtained subscription id reports `NotFound` (not `BusClosed`):
`unsubscribe` never consults the closed flag and `Close` has cleared
the registry. -/
theorem unsubscribe_after_close_notfound (b : BusState σ α)
    (hopen : b.closed = false) (id : String) :
    busUnsubscribe (busClose b).1 id =
      ((busClose b).1, some (notFoundMsg id)) := by
  have h1 : (busClose b).1 =
      { b with closed := true, queue := [], registry := registryClear b.registry } := by
    simp [busClose, hopen]
  rw [h1]
  have h2 : registryRemove (registryClear b.registry) id =
      (registryClear b.registry, some (notFoundMsg id)) :=
    registryRemove_notfound (registryClear b.registry) id rfl
  simp [busUnsubscribe, h2]

/-- Witness for C10 at `unitBus` and id `s1`. -/
theorem unsubscribe_after_close_notfound_witness :
    busUnsubscribe (busClose unitBus).1 "s1" =
      ((busClose unitBus).1, some (notFoundMsg "s1")) :=
  unsubscribe_after_close_notfound unitBus rfl "s1"

/-- C9: the error-handling step mutates only the retry counter: the
re-enqueued envelope is `retryStep env` (same message, same priority,
retries incremented), any number of `retryStep` transitions leaves the
message and priority unchanged, and when the dead-letter handler runs
it receives exactly the envelope's original message. -/
theorem handle_error_mutates_only_retries (b : BusState σ α)
    (env : Envelope α) (s : σ) :
    (env.retries + 1 < b.maxRetries →
      handleError b env s = ({ b with queue := b.queue ++ [retryStep env] }, s)) ∧
    (¬ env.retries + 1 < b.maxRetries →
      (handleError b env s).1 = b ∧
      (handleError b env s).2 =
        (match b.dlqHandler with
          | some h => (h env.msg s).1
          | none => s)) ∧
    (∀ k : Nat, retryStep^[k] env = ⟨env.msg, env.retries + k, env.priority⟩) := by
  refine ⟨?_, ?_, ?_⟩
  · intro h
    simp [handleError, retryStep, h]
  · intro h
    refine ⟨?_, ?_⟩
    · unfold handleError
      simp only [retryStep]
      rw [if_neg h]
      cases b.dlqHandler <;> simp
    · unfold handleError
      simp only [retryStep]
      rw [if_neg h]
      cases b.dlqHandler <;> simp
  · intro k
    induction k with
    | zero => simp
    | succ j ih =>
        rw [Function.iterate_succ_apply', ih]
        simp [retryStep, Nat.add_assoc]

/-- An envelope used in concrete witnesses. -/
def envW : Envelope Unit := ⟨NewMessage "t" () "m1" 0, 0, Priority.normal⟩

/-- An open bus whose retry bound is already exhausted after one
failure (`maxRetries = 1`). -/
def unitBus1 : BusState Unit Unit := ⟨emptyRegistry, [], [], false, 1, none⟩

/-- Witness for C9: on `unitBus` (maxRetries 3) the failing envelope is
re-enqueued as `retryStep envW`; on `unitBus1` (maxRetries 1) the bus
state is left alone; five retry transitions only bump the counter. -/
theorem handle_error_mutates_only_retries_witness :
    handleError unitBus envW () =
        ({ unitBus with queue := unitBus.queue ++ [retryStep envW] }, ()) ∧
      (handleError unitBus1 envW ()).1 = unitBus1 ∧
      retryStep^[5] envW = ⟨envW.msg, 5, envW.priority⟩ :=
  ⟨(handle_error_mutates_only_retries unitBus envW ()).1 (by decide),
   ((handle_error_mutates_only_retries unitBus1 envW ()).2.1 (by decide)).1,
   (handle_error_mutates_only_retries unitBus envW ()).2.2 5⟩

/-! ## Aggregate semantics of `PublishSync` -/

/-- An instrumented handler for observing the aggregate: records its
index `k` in the handler-world log and returns the prescribed error. -/
def instrHandler (k : Nat) (e : Option String) : Handler (List Nat) α :=
  fun _ s => (s ++ [k], e)

/-- Instrumented handlers with consecutive indices starting at `k`,
one per prescribed error. -/
def instrHandlers (k : Nat) : List (Option String) → List (Handler (List Nat) α)
  | [] => []
  | e :: errs => instrHandler k e :: instrHandlers (k + 1) errs

theorem instr_foldl (msg : Message α) :
    ∀ (errs : List (Option String)) (k : Nat) (s : List Nat)
      (e0 : Option String),
      (instrHandlers (α := α) k errs).foldl (aggStep msg) (s, e0) =
        (s ++ List.range' k errs.length,
          errs.foldl (fun acc e => if e.isSome then e else acc) e0) := by
  intro errs
  induction errs with
  | nil =>
      intro k s e0
      simp [instrHandlers, List.range']
  | cons e errs ih =>
      intro k s e0
      simp only [instrHandlers, List.foldl_cons]
      rw [show aggStep msg (s, e0) (instrHandler k e) =
        (s ++ [k], if e.isSome then e else e0) from rfl]
      rw [ih]
      simp only [List.length_cons, List.range']
      rw [List.append_assoc]
      rfl

theorem getLast?_cons_isSome (r : String) (rs : List String) :
    ∃ x, (r :: rs).getLast? = some x := by
  induction rs generalizing r with
  | nil => exact ⟨r, rfl⟩
  | cons r2 rs2 ih =>
      obtain ⟨x, hx⟩ := ih r2
      exact ⟨x, by rw [List.getLast?_cons_cons]; exact hx⟩

theorem lastErr_foldl :
    ∀ (errs : List (Option String)) (e0 : Option String),
      errs.foldl (fun acc e => if e.isSome then e else acc) e0 =
        (match errs.reduceOption.getLast? with
          | some e => some e
          | none => e0) := by
  intro errs
  induction errs with
  | nil => intro e0; rfl
  | cons e errs ih =>
      intro e0
      cases e with
      | none =>
          simp only [List.foldl_cons]
          rw [if_neg (by simp)]
          rw [ih]
          rw [List.reduceOption_cons_of_none]
      | some v =>
          simp only [List.foldl_cons]
          rw [if_pos (by simp)]
          rw [ih]
          rw [List.reduceOption_cons_of_some]
          cases hred : errs.reduceOption with
          | nil => simp
          | cons r rs =>
              rw [List.getLast?_cons_cons]
              obtain ⟨x, hx⟩ := getLast?_cons_isSome r rs
              rw [hx]

/-- C6: on an open bus, `PublishSync` returns nil when no subscription
matches the topic; when the matched handlers are the instrumented list
for a prescribed error list, every handler runs in order (the log
receives every index, even past failures) and the returned error is the
last failing handler's error, or nil if all succeeded. -/
theorem publish_sync_aggregate (b : BusState (List Nat) α) (topic : String)
    (payload : α) (newId : String) (now : Nat) (s : List Nat)
    (hopen : b.closed = false) :
    (GetHandlers b.registry topic = [] →
      busPublishSync b topic payload newId now s = (b, s, none)) ∧
    (∀ errs : List (Option String), b.middleware = [] →
      GetHandlers b.registry topic = instrHandlers 0 errs →
      busPublishSync b topic payload newId now s =
        (b, s ++ List.range errs.length, errs.reduceOption.getLast?)) := by
  constructor
  · intro hge
    simp [busPublishSync, hopen, hge]
  · intro errs hmw hge
    unfold busPublishSync
    rw [if_neg (by rw [hopen]; exact Bool.false_ne_true)]
    rw [hge, hmw]
    cases errs with
    | nil =>
        simp [instrHandlers]
    | cons e es =>
        rw [if_neg (by simp [instrHandlers])]
        simp only [wrapWithMiddleware, List.reverse_nil, List.foldl_nil,
          aggregateHandlers]
        rw [instr_foldl (NewMessage topic payload newId now) (e :: es) 0 s none]
        rw [lastErr_foldl]
        cases hred : (e :: es).reduceOption.getLast? <;>
          simp [hred, List.range_eq_range']

/-- A registry with three instrumented subscriptions on pattern `x`:
indices 0, 1, 2 with errors boom, nil, bang. -/
def instrRegistry : Registry (List Nat) Unit :=
  ⟨[("s0", ⟨"s0", "x", instrHandler 0 (some "boom")⟩),
    ("s1", ⟨"s1", "x", instrHandler 1 none⟩),
    ("s2", ⟨"s2", "x", instrHandler 2 (some "bang")⟩)],
   [("x", ["s0", "s1", "s2"])]⟩

/-- An open bus over `instrRegistry` with no middleware. -/
def instrBus : BusState (List Nat) Unit := ⟨instrRegistry, [], [], false, 3, none⟩

/-- Witness for C6: no subscription matches topic `y`, so `PublishSync`
returns nil; on topic `x` all three handlers run in order (log
`[0, 1, 2]`) and the error of the last failing handler (`bang`) is
returned even though an earlier handler (`boom`) already failed. -/
theorem publish_sync_aggregate_witness :
    busPublishSync instrBus "y" () "m2" 0 [] = (instrBus, [], none) ∧
      busPublishSync instrBus "x" () "m1" 0 [] =
        (instrBus, [0, 1, 2], some "bang") :=
  ⟨(publish_sync_aggregate instrBus "y" () "m2" 0 [] rfl).1 rfl,
   (publish_sync_aggregate instrBus "x" () "m1" 0 [] rfl).2
      [some "boom", none, some "bang"] rfl rfl⟩

/-! ## Retry bound scenario -/

/-- An always-failing handler counting its invocations in the first
component of the handler-world state. -/
def c1Fail : Handler (Nat × List (Message String)) String :=
  fun _ s => ((s.1 + 1, s.2), some "handler failed")

/-- A dead-letter handler recording every message it receives in the
second component of the handler-world state. -/
def c1Dlq : Handler (Nat × List (Message String)) String :=
  fun msg s => ((s.1, s.2 ++ [msg]), none)

/-- The published message of the retry scenario. -/
def c1Msg : Message String := NewMessage "x" "v" "m1" 0

/-- One always-failing subscription on pattern `x`. -/
def c1Registry : Registry (Nat × List (Message String)) String :=
  ⟨[("s1", ⟨"s1", "x", c1Fail⟩)], [("x", ["s1"])]⟩

/-- The retry-scenario bus with retry bound `m`, dead-letter handler
`c1Dlq`, and the single envelope at retry count `r` queued. -/
def c1Bus (m r : Nat) : BusState (Nat × List (Message String)) String :=
  ⟨c1Registry, [], [⟨c1Msg, r, Priority.normal⟩], false, m, some c1Dlq⟩

/-- The retry-scenario bus after its queue has drained. -/
def c1BusDone (m : Nat) : BusState (Nat × List (Message String)) String :=
  ⟨c1Registry, [], [], false, m, some c1Dlq⟩

theorem c1_getHandlers : GetHandlers c1Registry "x" = [c1Fail] := rfl

theorem c1_process (m r cnt : Nat) (acc : List (Message String)) :
    processMessage (c1BusDone m) ⟨c1Msg, r, Priority.normal⟩ (cnt, acc) =
      if r + 1 < m then (c1Bus m (r + 1), (cnt + 1, acc))
      else (c1BusDone m, (cnt + 1, acc ++ [c1Msg])) := by
  by_cases h : r + 1 < m <;>
    simp [processMessage, c1BusDone, c1Bus, c1Msg, NewMessage, c1_getHandlers,
      wrapWithMiddleware, aggregateHandlers, aggStep, c1Fail, c1Dlq,
      handleError, retryStep, h]

theorem drainLoop_empty_queue (b : BusState σ α) (s : σ) (hq : b.queue = []) :
    ∀ fuel, drainLoop fuel b s = (b, s) := by
  intro fuel
  cases fuel with
  | zero => rfl
  | succ f => simp only [drainLoop, hq]

theorem c1_round (m r cnt : Nat) (acc : List (Message String)) (fuel : Nat) :
    drainLoop (fuel + 1) (c1Bus m r) (cnt, acc) =
      if r + 1 < m then drainLoop fuel (c1Bus m (r + 1)) (cnt + 1, acc)
      else drainLoop fuel (c1BusDone m) (cnt + 1, acc ++ [c1Msg]) := by
  rw [show drainLoop (fuel + 1) (c1Bus m r) (cnt, acc) =
      drainLoop fuel
        (processMessage (c1BusDone m) ⟨c1Msg, r, Priority.normal⟩ (cnt, acc)).1
        (processMessage (c1BusDone m) ⟨c1Msg, r, Priority.normal⟩ (cnt, acc)).2
      from rfl]
  rw [c1_process m r cnt acc]
  by_cases h : r + 1 < m
  · simp only [if_pos h]
  · simp only [if_neg h]

theorem c1_drain : ∀ (d m r cnt : Nat) (acc : List (Message String))
    (fuel : Nat), m = r + 1 + d → d < fuel →
    drainLoop fuel (c1Bus m r) (cnt, acc) =
      (c1BusDone m, (cnt + d + 1, acc ++ [c1Msg])) := by
  intro d
  induction d with
  | zero =>
      intro m r cnt acc fuel hm hf
      obtain ⟨f, rfl⟩ : ∃ f, fuel = f + 1 := ⟨fuel - 1, by omega⟩
      rw [c1_round, if_neg (by omega),
        drainLoop_empty_queue (c1BusDone m) _ rfl f]
  | succ d2 ih =>
      intro m r cnt acc fuel hm hf
      obtain ⟨f, rfl⟩ : ∃ f, fuel = f + 1 := ⟨fuel - 1, by omega⟩
      rw [c1_round, if_pos (by omega),
        ih m (r + 1) (cnt + 1) acc f (by omega) (by omega)]
      have heq : cnt + 1 + d2 + 1 = cnt + (d2 + 1) + 1 := by omega
      rw [heq]

/-- C1: in the single-subscriber retry scenario (always-failing handler
counting its calls, dead-letter handler logging its messages), draining
the queue invokes the handler exactly `maxRetries` times for any
`maxRetries ≥ 1` and then the dead-letter handler exactly once with the
original message; with `maxRetries = 0` the dead-letter handler fires
after the single failed attempt. -/
theorem retry_bound (m : Nat) :
    (1 ≤ m →
      drainLoop (m + 1) (c1Bus m 0) (0, []) = (c1BusDone m, (m, [c1Msg]))) ∧
    drainLoop 1 (c1Bus 0 0) (0, []) = (c1BusDone 0, (1, [c1Msg])) := by
  constructor
  · intro hm
    rw [c1_drain (m - 1) m 0 0 [] (m + 1) (by omega) (by omega)]
    have h2 : 0 + (m - 1) + 1 = m := by omega
    rw [h2]
    simp
  · rw [c1_round 0 0 0 [] 0, if_neg (by omega)]
    rfl

/-- Witness for C1 at `maxRetries = 2`: two failing attempts, then one
dead-letter delivery of the original message. -/
theorem retry_bound_witness :
    drainLoop 3 (c1Bus 2 0) (0, []) = (c1BusDone 2, (2, [c1Msg])) :=
  (retry_bound 2).1 (by decide)

end Scela
